import Mathlib

/-
Verification development for the DEM_Rust raster pipeline (src/main.rs).

The Rust source works on `f32` values.  We model an `f32` as either NaN, one
of the two infinities, or a finite value idealized as an exact element of an
ordered field (`ℚ` for the parser / grayscale / gradient pipeline, `ℝ` for
the hillshade engine whose formulas use trigonometric functions).  Floating
point rounding of finite arithmetic is not modelled; the propagation rules
for NaN and the infinities follow IEEE-754 as implemented by Rust `f32`.

Input text is modelled after Rust's `content.lines()` /
`line.split_whitespace()` tokenization: a `List (List String)`, one inner
list of whitespace-separated tokens per line.
-/

namespace DEM

/-- Model of an IEEE `f32` value: NaN, an infinity, or a finite value
idealized as an exact element of `α` (rounding is not modelled). -/
inductive Fl (α : Type) : Type
  | nan : Fl α
  | inf : Fl α
  | ninf : Fl α
  | fin (x : α) : Fl α
deriving DecidableEq

variable {α : Type} [LinearOrderedField α]

/-- IEEE negation of an `f32`. -/
def negF : Fl α → Fl α
  | .nan => .nan
  | .inf => .ninf
  | .ninf => .inf
  | .fin x => .fin (-x)

/-- IEEE addition of `f32` values: NaN is absorbing, opposite infinities
produce NaN, an infinity absorbs finite values. -/
def addF : Fl α → Fl α → Fl α
  | .nan, _ => .nan
  | _, .nan => .nan
  | .inf, .ninf => .nan
  | .ninf, .inf => .nan
  | .inf, _ => .inf
  | _, .inf => .inf
  | .ninf, _ => .ninf
  | _, .ninf => .ninf
  | .fin a, .fin b => .fin (a + b)

/-- IEEE subtraction; on `f32` it coincides with adding the negation. -/
def subF (a b : Fl α) : Fl α := addF a (negF b)

/-- IEEE multiplication of `f32` values: NaN is absorbing, an infinity times
zero is NaN, otherwise an infinity wins with the usual sign rule. -/
def mulF : Fl α → Fl α → Fl α
  | .nan, _ => .nan
  | _, .nan => .nan
  | .inf, .inf => .inf
  | .inf, .ninf => .ninf
  | .ninf, .inf => .ninf
  | .ninf, .ninf => .inf
  | .inf, .fin b => if b = 0 then .nan else if b < 0 then .ninf else .inf
  | .fin a, .inf => if a = 0 then .nan else if a < 0 then .ninf else .inf
  | .ninf, .fin b => if b = 0 then .nan else if b < 0 then .inf else .ninf
  | .fin a, .ninf => if a = 0 then .nan else if a < 0 then .inf else .ninf
  | .fin a, .fin b => .fin (a * b)

/-- IEEE division of `f32` values.  Division of a finite value by zero gives
a signed infinity (the model has a single zero, standing for `+0.0`),
`0/0` and `inf/inf` give NaN, a finite value over an infinity gives zero. -/
def divF : Fl α → Fl α → Fl α
  | .nan, _ => .nan
  | _, .nan => .nan
  | .inf, .inf => .nan
  | .inf, .ninf => .nan
  | .ninf, .inf => .nan
  | .ninf, .ninf => .nan
  | .inf, .fin b => if b < 0 then .ninf else .inf
  | .ninf, .fin b => if b < 0 then .inf else .ninf
  | .fin _, .inf => .fin 0
  | .fin _, .ninf => .fin 0
  | .fin a, .fin b =>
    if b = 0 then (if a = 0 then .nan else if a < 0 then .ninf else .inf)
    else .fin (a / b)

/-- Rust `f32::min` as used by the fold in `data_to_grayscale`
(src/main.rs:80): if one argument is NaN the other is returned. -/
def fminF : Fl α → Fl α → Fl α
  | .nan, b => b
  | a, .nan => a
  | .ninf, _ => .ninf
  | _, .ninf => .ninf
  | .inf, b => b
  | a, .inf => a
  | .fin a, .fin b => .fin (min a b)

/-- Rust `f32::max`, dual to `fminF` (src/main.rs:81). -/
def fmaxF : Fl α → Fl α → Fl α
  | .nan, b => b
  | a, .nan => a
  | .inf, _ => .inf
  | _, .inf => .inf
  | .ninf, b => b
  | a, .ninf => a
  | .fin a, .fin b => .fin (max a b)

/-- IEEE strict greater-than on `f32` values; any comparison with NaN is
false (used for `range > 0.0` at src/main.rs:87). -/
def gtF : Fl α → Fl α → Bool
  | .nan, _ => false
  | _, .nan => false
  | .inf, .inf => false
  | .inf, _ => true
  | _, .inf => false
  | .ninf, _ => false
  | _, .ninf => true
  | .fin a, .fin b => decide (b < a)

/-- IEEE equality on `f32` values; NaN is not equal to anything, including
itself (used for `value == nodata_value` at src/main.rs:62). -/
def feq : Fl α → Fl α → Bool
  | .nan, _ => false
  | _, .nan => false
  | .inf, .inf => true
  | .ninf, .ninf => true
  | .fin a, .fin b => decide (a = b)
  | _, _ => false

/-- Rust `f32::clamp(lo, hi)`: NaN stays NaN, otherwise the value is forced
into `[lo, hi]` (src/main.rs:168). -/
def clampF (lo hi : α) : Fl α → Fl α
  | .nan => .nan
  | .inf => .fin hi
  | .ninf => .fin lo
  | .fin x => .fin (if x < lo then lo else if hi < x then hi else x)

/-- Rust `as u8` saturating cast from `f32`: NaN maps to 0, the cast
truncates toward zero and saturates into `[0, 255]`.  For every real `x`,
truncation-then-saturation agrees with `min 255 (max 0 ⌊x⌋)` (a negative
value saturates to 0 whether it is first truncated or not). -/
def castU8 [FloorRing α] : Fl α → ℕ
  | .nan => 0
  | .inf => 255
  | .ninf => 0
  | .fin x => min 255 (Int.toNat ⌊x⌋)

/-- Sum of a list of `f32` values, folded from the left starting at `0.0`. -/
def sumF (l : List (Fl α)) : Fl α := l.foldl addF (.fin 0)

/-! ### Grid parser (`asc_to_image`, src/main.rs:35-68) -/

/-- Decimal digit test for the modelled `str::parse` collaborators. -/
def isDig (c : Char) : Bool := decide ('0' ≤ c) && decide (c ≤ '9')

/-- Numeric value of a digit character. -/
def digVal (c : Char) : ℕ := c.toNat - '0'.toNat

/-- Value of a (most-significant-first) digit string. -/
def natOfDigits (l : List Char) : ℕ := l.foldl (fun a c => 10 * a + digVal c) 0

/-- Modelled from the Rust standard library collaborator `str::parse::<u32>`
(used for the `ncols` / `nrows` header fields, src/main.rs:49-50): an
optional leading `+` followed by a nonempty digit string whose value fits
in 32 bits. -/
def parseU32 (s : String) : Option ℕ :=
  let cs := match s.data with
    | '+' :: rest => rest
    | l => l
  if cs.isEmpty then none
  else if cs.all isDig then
    if natOfDigits cs < 4294967296 then some (natOfDigits cs) else none
  else none

/-- Splits a character list at the first `.`, if any. -/
def splitDot : List Char → List Char × Option (List Char)
  | [] => ([], none)
  | '.' :: rest => ([], some rest)
  | c :: rest =>
    let p := splitDot rest
    (c :: p.1, p.2)

/-- Modelled from the Rust standard library collaborator `str::parse::<f32>`
(src/main.rs:51-52 and 58), restricted to the plain decimal subset of its
grammar: an optional sign, then digits with an optional fractional part
(at least one digit overall).  Exponents and the `inf` / `nan` word forms
are outside the modelled subset, and the finite result is kept exact
instead of being rounded to the nearest `f32`. -/
def parseF32 (s : String) : Option (Fl ℚ) :=
  let p : ℚ × List Char := match s.data with
    | '+' :: rest => (1, rest)
    | '-' :: rest => (-1, rest)
    | l => (1, l)
  let q := splitDot p.2
  match q.2 with
  | none =>
    if q.1.isEmpty then none
    else if q.1.all isDig then some (.fin (p.1 * (natOfDigits q.1 : ℚ)))
    else none
  | some fp =>
    if q.1.isEmpty && fp.isEmpty then none
    else if q.1.all isDig && fp.all isDig then
      some (.fin (p.1 * ((natOfDigits q.1 : ℚ) + (natOfDigits fp : ℚ) / 10 ^ fp.length)))
    else none

/-- Mutable state of the parser loop in `asc_to_image`: `width`, `height`,
`nodata_value` (initially NaN) and `cell_size` (initially `1.0`),
src/main.rs:37-41. -/
structure AscState where
  width : ℕ
  height : ℕ
  nodata_value : Fl ℚ
  cell_size : Fl ℚ
deriving DecidableEq

/-- One header line of `asc_to_image` (src/main.rs:48-54): a match on the
whitespace-split tokens; the four recognized two-token patterns parse their
numeric field (`?` propagates a parse failure as `none`), anything else is
ignored. -/
def applyHeader (st : AscState) (parts : List String) : Option AscState :=
  match parts with
  | [key, value] =>
    if key = "ncols" then
      (parseU32 value).map fun n => ⟨n, st.height, st.nodata_value, st.cell_size⟩
    else if key = "nrows" then
      (parseU32 value).map fun n => ⟨st.width, n, st.nodata_value, st.cell_size⟩
    else if key = "nodata_value" then
      (parseF32 value).map fun v => ⟨st.width, st.height, v, st.cell_size⟩
    else if key = "cellsize" then
      (parseF32 value).map fun v => ⟨st.width, st.height, st.nodata_value, v⟩
    else some st
  | _ => some st

/-- The `while let Some(line)` loop of `asc_to_image` (src/main.rs:44-66).
The first argument is the remaining `header_lines` count.  Once it reaches
zero, every token of a line that parses as an `f32` is appended (a token
equal to `nodata_value` is stored as NaN); tokens that fail to parse are
skipped. -/
def ascLoop : ℕ → AscState → List (Fl ℚ) → List (List String) →
    Option (List (Fl ℚ) × ℕ × ℕ × Fl ℚ)
  | _, st, acc, [] => some (acc, st.width, st.height, st.cell_size)
  | hl + 1, st, acc, parts :: rest =>
    match applyHeader st parts with
    | none => none
    | some st2 => ascLoop hl st2 acc rest
  | 0, st, acc, parts :: rest =>
    ascLoop 0 st
      (acc ++ (parts.filterMap parseF32).map fun v => if feq v st.nodata_value then .nan else v)
      rest

/-- Translation of `asc_to_image` (src/main.rs:35-68) over tokenized input
lines.  Returns the elevation data, width, height and cell size, or `none`
where the Rust function returns `Err`. -/
def asc_to_image (lines : List (List String)) : Option (List (Fl ℚ) × ℕ × ℕ × Fl ℚ) :=
  ascLoop 6 ⟨0, 0, .nan, .fin 1⟩ [] lines

/-- Header-line validity: the recognized two-token header patterns must
carry a parsable numeric field; all other lines are fine. -/
def headerLineOk (parts : List String) : Bool :=
  match parts with
  | [key, value] =>
    if key = "ncols" then (parseU32 value).isSome
    else if key = "nrows" then (parseU32 value).isSome
    else if key = "nodata_value" then (parseF32 value).isSome
    else if key = "cellsize" then (parseF32 value).isSome
    else true
  | _ => true

/-- Validity of the (up to) six header lines of an input. -/
def headerOk (lines : List (List String)) : Bool :=
  (lines.take 6).all headerLineOk

/-! ### Grayscale renderer (`data_to_grayscale`, src/main.rs:78-92) -/

/-- Pointwise update of a two-argument raster function (the model of
`put_pixel`). -/
def upd {β : Type} (img : ℕ → ℕ → β) (x y : ℕ) (v : β) : ℕ → ℕ → β :=
  fun a b => if a = x ∧ b = y then v else img a b

/-- Per-cell pixel computation of `data_to_grayscale` (src/main.rs:87-88):
`normalized_value = if range > 0.0 { (value - min_val) / range } else { 0.0 }`
followed by `(normalized_value * 255.0) as u8`. -/
def grayPix (min_val range : Fl ℚ) (value : Fl ℚ) : ℕ :=
  let normalized_value := if gtF range (.fin 0) then divF (subF value min_val) range else .fin 0
  castU8 (mulF normalized_value (.fin 255))

/-- The `for (i, &value) in data.iter().enumerate()` loop of
`data_to_grayscale` (src/main.rs:84-90): pixel `(i % width, i / width)` is
written for each successive cell. -/
def renderFrom (pix : Fl ℚ → ℕ) (w : ℕ) : ℕ → (ℕ → ℕ → ℕ) → List (Fl ℚ) → (ℕ → ℕ → ℕ)
  | _, img, [] => img
  | i, img, value :: rest => renderFrom pix w (i + 1) (upd img (i % w) (i / w) (pix value)) rest

/-- Translation of `data_to_grayscale` (src/main.rs:78-92).  The returned
raster is a total function; `GrayImage::new` default-initializes every
pixel to 0. -/
def data_to_grayscale (data_processed : List (Fl ℚ)) (width height : ℕ) : ℕ → ℕ → ℕ :=
  let min_val := data_processed.foldl fminF .inf
  let max_val := data_processed.foldl fmaxF .ninf
  let range := subF max_val min_val
  renderFrom (grayPix min_val range) width 0 (fun _ _ => 0) data_processed

/-! ### Hillshade engine (`hill_shading`, src/main.rs:136-182) -/

/-- Neighborhood lookup of `hill_shading` (src/main.rs:145): the inline
closure `idx(dx, dy) = (y + dy) * width + (x + dx)` in `i32` arithmetic,
cast to an index.  Interior loop coordinates keep the index in range. -/
def zval (data : List (Fl ℝ)) (w x y : ℕ) (dx dy : ℤ) : Fl ℝ :=
  data.getD ((((y : ℤ) + dy) * (w : ℤ) + ((x : ℤ) + dx)).toNat) (.fin 0)

/-- Lift of `f32::sqrt`: NaN for negative arguments. -/
noncomputable def sqrtF : Fl ℝ → Fl ℝ
  | .nan => .nan
  | .inf => .inf
  | .ninf => .nan
  | .fin x => if x < 0 then .nan else .fin (Real.sqrt x)

/-- Lift of `f32::atan`. -/
noncomputable def atanF : Fl ℝ → Fl ℝ
  | .nan => .nan
  | .inf => .fin (Real.pi / 2)
  | .ninf => .fin (-(Real.pi / 2))
  | .fin x => .fin (Real.arctan x)

/-- Lift of `f32::cos` (NaN on NaN or infinite arguments). -/
noncomputable def cosF : Fl ℝ → Fl ℝ
  | .fin x => .fin (Real.cos x)
  | _ => .nan

/-- Lift of `f32::sin` (NaN on NaN or infinite arguments). -/
noncomputable def sinF : Fl ℝ → Fl ℝ
  | .fin x => .fin (Real.sin x)
  | _ => .nan

/-- Real two-argument arctangent, `atan2 y x`, with `atan2 0 0 = 0` as for
`f32::atan2`. -/
noncomputable def atan2R (y x : ℝ) : ℝ :=
  if 0 < x then Real.arctan (y / x)
  else if x < 0 then
    (if y < 0 then Real.arctan (y / x) - Real.pi else Real.arctan (y / x) + Real.pi)
  else if 0 < y then Real.pi / 2
  else if y < 0 then -(Real.pi / 2)
  else 0

/-- Lift of `f32::atan2`: NaN if either argument is NaN.  The
infinite-argument cases (where `f32` returns various multiples of `π/4`)
are unused by the interior formulas verified here and are modelled as 0. -/
noncomputable def atan2F : Fl ℝ → Fl ℝ → Fl ℝ
  | .nan, _ => .nan
  | _, .nan => .nan
  | .fin y, .fin x => .fin (atan2R y x)
  | _, _ => .fin 0

/-- Illumination intensity of one interior cell of `hill_shading`
(src/main.rs:147-166): Horn finite differences (the center `z5` is unused,
src/main.rs:151), slope, aspect, and the lighting formula.  `powi(2)` is
squaring by self-multiplication. -/
noncomputable def hillIntensity (data : List (Fl ℝ)) (w : ℕ)
    (cellsize azimuth altitude : ℝ) (x y : ℕ) : Fl ℝ :=
  let azimuth_rad := azimuth * (Real.pi / 180)
  let altitude_rad := altitude * (Real.pi / 180)
  let z1 := zval data w x y (-1) (-1)
  let z2 := zval data w x y 0 (-1)
  let z3 := zval data w x y 1 (-1)
  let z4 := zval data w x y (-1) 0
  let z6 := zval data w x y 1 0
  let z7 := zval data w x y (-1) 1
  let z8 := zval data w x y 0 1
  let z9 := zval data w x y 1 1
  let dz_dx := divF (subF (addF (addF z3 (mulF (.fin 2) z6)) z9)
                          (addF (addF z1 (mulF (.fin 2) z4)) z7))
                    (mulF (.fin 8) (.fin cellsize))
  let dz_dy := divF (subF (addF (addF z7 (mulF (.fin 2) z8)) z9)
                          (addF (addF z1 (mulF (.fin 2) z2)) z3))
                    (mulF (.fin 8) (.fin cellsize))
  let slope := atanF (sqrtF (addF (mulF dz_dx dz_dx) (mulF dz_dy dz_dy)))
  let aspect := atan2F dz_dy dz_dx
  mulF (.fin 255)
    (addF (mulF (.fin (Real.cos altitude_rad)) (cosF slope))
          (mulF (mulF (.fin (Real.sin altitude_rad)) (sinF slope))
                (cosF (subF (.fin azimuth_rad) aspect))))

/-- Loop body of `hill_shading` for one interior cell (src/main.rs:168-176):
the clamped and cast grayscale pixel, and the shade-modulated RGBA pixel
`(color * pixel_value / 255, alpha = 255)`. -/
noncomputable def hillBody (data : List (Fl ℝ)) (colored : ℕ → ℕ → ℕ × ℕ × ℕ × ℕ)
    (w : ℕ) (cellsize azimuth altitude : ℝ) (x y : ℕ) : ℕ × (ℕ × ℕ × ℕ × ℕ) :=
  let pixel_value := castU8 (clampF 0 255 (hillIntensity data w cellsize azimuth altitude x y))
  let color := colored x y
  let r := castU8 (divF (mulF (.fin ((color.1 : ℝ))) (.fin ((pixel_value : ℝ)))) (.fin 255))
  let g := castU8 (divF (mulF (.fin ((color.2.1 : ℝ))) (.fin ((pixel_value : ℝ)))) (.fin 255))
  let b := castU8 (divF (mulF (.fin ((color.2.2.1 : ℝ))) (.fin ((pixel_value : ℝ)))) (.fin 255))
  (pixel_value, (r, g, b, 255))

/-- Inner `for x in 1..width-1` loop of `hill_shading`, writing both the
grayscale and the RGBA raster at `(x, y)`. -/
def hillInner {G C : Type} (body : ℕ → ℕ → G × C) (y : ℕ) :
    List ℕ → (ℕ → ℕ → G) × (ℕ → ℕ → C) → (ℕ → ℕ → G) × (ℕ → ℕ → C)
  | [], imgs => imgs
  | x :: xs, imgs => hillInner body y xs (upd imgs.1 x y (body x y).1, upd imgs.2 x y (body x y).2)

/-- Outer `for y in 1..height-1` loop of `hill_shading`. -/
def hillOuter {G C : Type} (body : ℕ → ℕ → G × C) (xs : List ℕ) :
    List ℕ → (ℕ → ℕ → G) × (ℕ → ℕ → C) → (ℕ → ℕ → G) × (ℕ → ℕ → C)
  | [], imgs => imgs
  | y :: ys, imgs => hillOuter body xs ys (hillInner body y xs imgs)

/-- Translation of `hill_shading` (src/main.rs:136-182).  Both rasters start
default-initialized (`GrayImage::new` is all 0, `RgbaImage::new` is all
`(0,0,0,0)`), and only the interior coordinates `1..dim-1` are written. -/
noncomputable def hill_shading (data : List (Fl ℝ)) (colored_image : ℕ → ℕ → ℕ × ℕ × ℕ × ℕ)
    (width height : ℕ) (cellsize azimuth altitude : ℝ) :
    (ℕ → ℕ → ℕ) × (ℕ → ℕ → ℕ × ℕ × ℕ × ℕ) :=
  hillOuter (hillBody data colored_image width cellsize azimuth altitude)
    (List.range' 1 (width - 1 - 1)) (List.range' 1 (height - 1 - 1))
    (fun _ _ => 0, fun _ _ => (0, 0, 0, 0))

/-! ### Gradient field sampler (`compute_gradients`, src/main.rs:222-257) -/

/-- Pointwise update of a flat (vector-indexed) store. -/
def upd1 {β : Type} (g : ℕ → β) (i : ℕ) (v : β) : ℕ → β :=
  fun n => if n = i then v else g n

/-- Loop body of `compute_gradients` for one cell (src/main.rs:232-252): the
two interleaved accumulations `dz_dx += data[left]; dz_dx -= data[right]`
over offsets `1..=half_window`, each then divided by `half_window as f32`. -/
def gradBody (data : List (Fl ℚ)) (w half_window : ℕ) (x y : ℕ) : Fl ℚ × Fl ℚ :=
  let dz_dx := divF
    ((List.range' 1 half_window).foldl
      (fun a offset => subF (addF a (data.getD (y * w + (x - offset)) (.fin 0)))
                            (data.getD (y * w + (x + offset)) (.fin 0)))
      (.fin 0))
    (.fin (half_window : ℚ))
  let dz_dy := divF
    ((List.range' 1 half_window).foldl
      (fun a offset => subF (addF a (data.getD ((y - offset) * w + x) (.fin 0)))
                            (data.getD ((y + offset) * w + x) (.fin 0)))
      (.fin 0))
    (.fin (half_window : ℚ))
  (dz_dx, dz_dy)

/-- Inner `for x in half_window..(width - half_window)` loop of
`compute_gradients`, writing `gradients[y * width + x]`. -/
def gradInner (body : ℕ → ℕ → Fl ℚ × Fl ℚ) (w y : ℕ) :
    List ℕ → (ℕ → Fl ℚ × Fl ℚ) → (ℕ → Fl ℚ × Fl ℚ)
  | [], g => g
  | x :: xs, g => gradInner body w y xs (upd1 g (y * w + x) (body x y))

/-- Outer `for y in half_window..(height - half_window)` loop of
`compute_gradients`. -/
def gradOuter (body : ℕ → ℕ → Fl ℚ × Fl ℚ) (w : ℕ) (xs : List ℕ) :
    List ℕ → (ℕ → Fl ℚ × Fl ℚ) → (ℕ → Fl ℚ × Fl ℚ)
  | [], g => g
  | y :: ys, g => gradOuter body w xs ys (gradInner body w y xs g)

/-- Translation of `compute_gradients` (src/main.rs:222-257): the result
starts as `vec![(0.0, 0.0); width * height]` and only the cells at least
`half_window = window_size / 2` away from every border are assigned. -/
def compute_gradients (data : List (Fl ℚ)) (width height window_size : ℕ) : ℕ → Fl ℚ × Fl ℚ :=
  let half_window := window_size / 2
  gradOuter (gradBody data width half_window) width
    (List.range' half_window ((width - half_window) - half_window))
    (List.range' half_window ((height - half_window) - half_window))
    (fun _ => (.fin 0, .fin 0))

/-! ### Basic algebra of the `f32` model -/

@[simp] theorem addF_nan_left (x : Fl α) : addF .nan x = .nan := by cases x <;> rfl

@[simp] theorem addF_nan_right (x : Fl α) : addF x .nan = .nan := by cases x <;> rfl

@[simp] theorem negF_nan : (negF .nan : Fl α) = .nan := rfl

@[simp] theorem subF_nan_left (x : Fl α) : subF .nan x = .nan := by cases x <;> rfl

@[simp] theorem subF_nan_right (x : Fl α) : subF x .nan = .nan := by cases x <;> rfl

@[simp] theorem mulF_nan_left (x : Fl α) : mulF .nan x = .nan := by cases x <;> rfl

@[simp] theorem mulF_nan_right (x : Fl α) : mulF x .nan = .nan := by cases x <;> rfl

@[simp] theorem divF_nan_left (x : Fl α) : divF .nan x = .nan := by cases x <;> rfl

@[simp] theorem divF_nan_right (x : Fl α) : divF x .nan = .nan := by cases x <;> rfl

@[simp] theorem addF_fin (a b : α) : addF (.fin a) (.fin b) = .fin (a + b) := rfl

@[simp] theorem negF_fin (a : α) : negF (.fin a) = .fin (-a) := rfl

@[simp] theorem subF_fin (a b : α) : subF (.fin a) (.fin b) = .fin (a - b) := by
  simp [subF, sub_eq_add_neg]

@[simp] theorem mulF_fin (a b : α) : mulF (.fin a) (.fin b) = .fin (a * b) := rfl

theorem divF_fin (a b : α) (hb : b ≠ 0) : divF (.fin a) (.fin b) = .fin (a / b) := by
  simp [divF, hb]

theorem addF_comm (x y : Fl α) : addF x y = addF y x := by
  cases x <;> cases y <;> simp [addF, add_comm]

theorem addF_assoc (x y z : Fl α) : addF (addF x y) z = addF x (addF y z) := by
  cases x <;> cases y <;> cases z <;> simp [addF, add_assoc]

theorem addF_left_comm (x y z : Fl α) : addF x (addF y z) = addF y (addF x z) := by
  rw [← addF_assoc, addF_comm x y, addF_assoc]

@[simp] theorem addF_zero_right (x : Fl α) : addF x (.fin 0) = x := by
  cases x <;> simp [addF]

@[simp] theorem zero_addF (x : Fl α) : addF (.fin 0) x = x := by
  cases x <;> simp [addF]

theorem negF_addF (x y : Fl α) : negF (addF x y) = addF (negF x) (negF y) := by
  cases x <;> cases y <;> simp [addF, negF, neg_add, add_comm]

theorem foldl_addF (l : List (Fl α)) : ∀ a : Fl α, l.foldl addF a = addF a (sumF l) := by
  induction l with
  | nil => intro a; simp [sumF]
  | cons x xs ih =>
    intro a
    have h1 : sumF (x :: xs) = addF x (sumF xs) := by
      simp only [sumF, List.foldl_cons, zero_addF]
      exact ih x
    simp only [List.foldl_cons, ih (addF a x), h1, addF_assoc]

theorem sumF_cons (x : Fl α) (xs : List (Fl α)) : sumF (x :: xs) = addF x (sumF xs) := by
  simp only [sumF, List.foldl_cons, zero_addF]
  exact foldl_addF xs x

/-- The interleaved accumulation `acc += L(o); acc -= R(o)` over a list of
offsets equals the difference of the two sums, in `f32` arithmetic. -/
theorem foldl_sub_add_eq (L R : ℕ → Fl α) (os : List ℕ) : ∀ acc : Fl α,
    os.foldl (fun a o => subF (addF a (L o)) (R o)) acc
      = addF acc (subF (sumF (os.map L)) (sumF (os.map R))) := by
  induction os with
  | nil => intro acc; simp [sumF, subF]
  | cons o os ih =>
    intro acc
    rw [List.foldl_cons, ih]
    simp only [List.map_cons, sumF_cons, subF, negF_addF]
    simp only [addF_assoc, addF_comm, addF_left_comm]

theorem castU8_fin_mono [FloorRing α] {a b : α} (h : a ≤ b) :
    castU8 (.fin a) ≤ castU8 (.fin b) := by
  simp only [castU8]
  exact min_le_min (le_refl 255) (Int.toNat_le_toNat (Int.floor_mono h))

/-- Two cell positions with the same row and column are the same index. -/
theorem modDiv_inj {w a b : ℕ} (h1 : a % w = b % w) (h2 : a / w = b / w) : a = b := by
  have ha := Nat.div_add_mod a w
  have hb := Nat.div_add_mod b w
  rw [← ha, ← hb, h1, h2]

/-- Row-major indices in the same raster agree only on equal coordinates. -/
theorem rowIdx_inj {w x x' y y' : ℕ} (hx : x < w) (hx' : x' < w)
    (h : y * w + x = y' * w + x') : y = y' ∧ x = x' := by
  have hw : 0 < w := Nat.pos_of_ne_zero fun hz => by omega
  have e1 : y * w + x = x + y * w := by ring
  have e2 : y' * w + x' = x' + y' * w := by ring
  rw [e1, e2] at h
  have d1 : (x + y * w) / w = y := by
    rw [Nat.add_mul_div_right _ _ hw, Nat.div_eq_of_lt hx, Nat.zero_add]
  have d2 : (x' + y' * w) / w = y' := by
    rw [Nat.add_mul_div_right _ _ hw, Nat.div_eq_of_lt hx', Nat.zero_add]
  have m1 : (x + y * w) % w = x := by
    rw [Nat.add_mul_mod_self_right, Nat.mod_eq_of_lt hx]
  have m2 : (x' + y' * w) % w = x' := by
    rw [Nat.add_mul_mod_self_right, Nat.mod_eq_of_lt hx']
  constructor
  · rw [← d1, ← d2, h]
  · rw [← m1, ← m2, h]

/-! ### Write and untouched lemmas for the rendering loops -/

theorem renderFrom_untouched (pix : Fl ℚ → ℕ) (w : ℕ) (rest : List (Fl ℚ)) :
    ∀ (i : ℕ) (img : ℕ → ℕ → ℕ) (x0 y0 : ℕ),
    (∀ k, k < rest.length → ¬((i + k) % w = x0 ∧ (i + k) / w = y0)) →
    renderFrom pix w i img rest x0 y0 = img x0 y0 := by
  induction rest with
  | nil => intro i img x0 y0 _; rfl
  | cons v vs ih =>
    intro i img x0 y0 hk
    have h0 : ¬(i % w = x0 ∧ i / w = y0) := by
      have := hk 0 (by simp)
      simpa using this
    simp only [renderFrom]
    rw [ih (i + 1) _ x0 y0 ?_]
    · simp only [upd]
      exact if_neg fun hc => h0 ⟨hc.1.symm, hc.2.symm⟩
    · intro k hk2 hc
      exact hk (k + 1) (by simpa using Nat.succ_lt_succ hk2) (by
        have : i + (k + 1) = i + 1 + k := by omega
        rw [this]; exact hc)

theorem renderFrom_get (pix : Fl ℚ → ℕ) (w : ℕ) (rest : List (Fl ℚ)) :
    ∀ (i j : ℕ) (img : ℕ → ℕ → ℕ) (hj : j < rest.length),
    renderFrom pix w i img rest ((i + j) % w) ((i + j) / w) = pix (rest.get ⟨j, hj⟩) := by
  induction rest with
  | nil => intro i j img hj; exact absurd hj (by simp)
  | cons v vs ih =>
    intro i j img hj
    cases j with
    | zero =>
      simp only [renderFrom, Nat.add_zero, List.get]
      rw [renderFrom_untouched pix w vs (i + 1) _ (i % w) (i / w) ?_]
      · simp [upd]
      · rintro k _ ⟨h1, h2⟩
        have : i + 1 + k = i := modDiv_inj h1 h2
        omega
    | succ j2 =>
      simp only [renderFrom]
      have he : i + (j2 + 1) = (i + 1) + j2 := by omega
      rw [he]
      exact ih (i + 1) j2 _ (by simpa using hj)

/-- Pointwise description of `data_to_grayscale`: the pixel written for cell
`i` is the per-cell computation of the cell's value against the grid's
min/max fold results. -/
theorem data_to_grayscale_get (data : List (Fl ℚ)) (w h : ℕ) (i : ℕ) (hi : i < data.length) :
    data_to_grayscale data w h (i % w) (i / w)
      = grayPix (data.foldl fminF .inf)
          (subF (data.foldl fmaxF .ninf) (data.foldl fminF .inf)) (data.get ⟨i, hi⟩) := by
  unfold data_to_grayscale
  have := renderFrom_get
    (grayPix (data.foldl fminF .inf) (subF (data.foldl fmaxF .ninf) (data.foldl fminF .inf)))
    w data 0 i (fun _ _ => 0) (by simpa using hi)
  simpa using this

theorem hillInner_ne {G C : Type} (body : ℕ → ℕ → G × C) (y : ℕ) (xs : List ℕ) :
    ∀ (imgs : (ℕ → ℕ → G) × (ℕ → ℕ → C)) (x0 y0 : ℕ), (y0 ≠ y ∨ x0 ∉ xs) →
    (hillInner body y xs imgs).1 x0 y0 = imgs.1 x0 y0 ∧
    (hillInner body y xs imgs).2 x0 y0 = imgs.2 x0 y0 := by
  induction xs with
  | nil => intro imgs x0 y0 _; exact ⟨rfl, rfl⟩
  | cons x xs ih =>
    intro imgs x0 y0 h
    have hne : ¬(x0 = x ∧ y0 = y) := by
      rcases h with h | h
      · rintro ⟨_, h2⟩; exact h h2
      · rintro ⟨h1, _⟩; exact h (by simp [h1])
    have h2 : y0 ≠ y ∨ x0 ∉ xs := by
      rcases h with h | h
      · exact Or.inl h
      · exact Or.inr fun hm => h (List.mem_cons_of_mem x hm)
    obtain ⟨e1, e2⟩ := ih (upd imgs.1 x y (body x y).1, upd imgs.2 x y (body x y).2) x0 y0 h2
    refine ⟨?_, ?_⟩
    · simp only [hillInner]
      rw [e1]
      simp only [upd]
      exact if_neg hne
    · simp only [hillInner]
      rw [e2]
      simp only [upd]
      exact if_neg hne

theorem hillInner_get {G C : Type} (body : ℕ → ℕ → G × C) (y : ℕ) (xs : List ℕ) :
    ∀ (imgs : (ℕ → ℕ → G) × (ℕ → ℕ → C)) (x0 : ℕ), x0 ∈ xs → xs.Nodup →
    (hillInner body y xs imgs).1 x0 y = (body x0 y).1 ∧
    (hillInner body y xs imgs).2 x0 y = (body x0 y).2 := by
  induction xs with
  | nil => intro imgs x0 h _; exact absurd h (List.not_mem_nil x0)
  | cons x xs ih =>
    intro imgs x0 hx hnd
    by_cases hxx : x0 = x
    · subst hxx
      have hnot : x0 ∉ xs := (List.nodup_cons.mp hnd).1
      obtain ⟨e1, e2⟩ := hillInner_ne body y xs
        (upd imgs.1 x0 y (body x0 y).1, upd imgs.2 x0 y (body x0 y).2) x0 y (Or.inr hnot)
      refine ⟨?_, ?_⟩
      · simp only [hillInner]
        rw [e1]
        simp [upd]
      · simp only [hillInner]
        rw [e2]
        simp [upd]
    · have hx2 : x0 ∈ xs := by
        rcases List.mem_cons.mp hx with h | h
        · exact absurd h hxx
        · exact h
      exact ih _ x0 hx2 (List.nodup_cons.mp hnd).2

theorem hillOuter_ne {G C : Type} (body : ℕ → ℕ → G × C) (xs : List ℕ) (ys : List ℕ) :
    ∀ (imgs : (ℕ → ℕ → G) × (ℕ → ℕ → C)) (x0 y0 : ℕ), (x0 ∉ xs ∨ y0 ∉ ys) →
    (hillOuter body xs ys imgs).1 x0 y0 = imgs.1 x0 y0 ∧
    (hillOuter body xs ys imgs).2 x0 y0 = imgs.2 x0 y0 := by
  induction ys with
  | nil => intro imgs x0 y0 _; exact ⟨rfl, rfl⟩
  | cons y ys ih =>
    intro imgs x0 y0 h
    have hinner : y0 ≠ y ∨ x0 ∉ xs := by
      rcases h with h | h
      · exact Or.inr h
      · exact Or.inl fun hm => h (by simp [hm])
    have houter : x0 ∉ xs ∨ y0 ∉ ys := by
      rcases h with h | h
      · exact Or.inl h
      · exact Or.inr fun hm => h (List.mem_cons_of_mem y hm)
    obtain ⟨i1, i2⟩ := hillInner_ne body y xs imgs x0 y0 hinner
    obtain ⟨o1, o2⟩ := ih (hillInner body y xs imgs) x0 y0 houter
    exact ⟨o1.trans i1, o2.trans i2⟩

theorem hillOuter_get {G C : Type} (body : ℕ → ℕ → G × C) (xs : List ℕ) (ys : List ℕ) :
    ∀ (imgs : (ℕ → ℕ → G) × (ℕ → ℕ → C)) (x0 y0 : ℕ),
    x0 ∈ xs → xs.Nodup → y0 ∈ ys → ys.Nodup →
    (hillOuter body xs ys imgs).1 x0 y0 = (body x0 y0).1 ∧
    (hillOuter body xs ys imgs).2 x0 y0 = (body x0 y0).2 := by
  induction ys with
  | nil => intro imgs x0 y0 _ _ hy _; exact absurd hy (List.not_mem_nil y0)
  | cons y ys ih =>
    intro imgs x0 y0 hx hndx hy hndy
    by_cases hyy : y0 = y
    · subst hyy
      have hnot : y0 ∉ ys := (List.nodup_cons.mp hndy).1
      obtain ⟨o1, o2⟩ := hillOuter_ne body xs ys (hillInner body y0 xs imgs) x0 y0 (Or.inr hnot)
      obtain ⟨i1, i2⟩ := hillInner_get body y0 xs imgs x0 hx hndx
      exact ⟨o1.trans i1, o2.trans i2⟩
    · have hy2 : y0 ∈ ys := by
        rcases List.mem_cons.mp hy with h | h
        · exact absurd h hyy
        · exact h
      exact ih (hillInner body y xs imgs) x0 y0 hx hndx hy2 (List.nodup_cons.mp hndy).2

theorem gradInner_ne (body : ℕ → ℕ → Fl ℚ × Fl ℚ) (w y : ℕ) (xs : List ℕ) :
    ∀ (g : ℕ → Fl ℚ × Fl ℚ) (n : ℕ), (∀ x ∈ xs, n ≠ y * w + x) →
    gradInner body w y xs g n = g n := by
  induction xs with
  | nil => intro g n _; rfl
  | cons x xs ih =>
    intro g n h
    simp only [gradInner]
    rw [ih _ n fun x2 hm => h x2 (List.mem_cons_of_mem x hm)]
    simp only [upd1]
    exact if_neg (h x (by simp))

theorem gradInner_get (body : ℕ → ℕ → Fl ℚ × Fl ℚ) (w y : ℕ) (xs : List ℕ) :
    ∀ (g : ℕ → Fl ℚ × Fl ℚ) (x0 : ℕ), x0 ∈ xs → xs.Nodup →
    gradInner body w y xs g (y * w + x0) = body x0 y := by
  induction xs with
  | nil => intro g x0 h _; exact absurd h (List.not_mem_nil x0)
  | cons x xs ih =>
    intro g x0 hx hnd
    by_cases hxx : x0 = x
    · subst hxx
      have hnot : x0 ∉ xs := (List.nodup_cons.mp hnd).1
      simp only [gradInner]
      rw [gradInner_ne body w y xs _ (y * w + x0) ?_]
      · simp [upd1]
      · intro x2 hm he
        have hx02 : x0 = x2 := by omega
        exact hnot (hx02 ▸ hm)
    · have hx2 : x0 ∈ xs := by
        rcases List.mem_cons.mp hx with h | h
        · exact absurd h hxx
        · exact h
      exact ih _ x0 hx2 (List.nodup_cons.mp hnd).2

theorem gradOuter_ne (body : ℕ → ℕ → Fl ℚ × Fl ℚ) (w : ℕ) (xs : List ℕ) (ys : List ℕ) :
    ∀ (g : ℕ → Fl ℚ × Fl ℚ) (n : ℕ), (∀ y ∈ ys, ∀ x ∈ xs, n ≠ y * w + x) →
    gradOuter body w xs ys g n = g n := by
  induction ys with
  | nil => intro g n _; rfl
  | cons y ys ih =>
    intro g n h
    simp only [gradOuter]
    rw [ih _ n fun y2 hm => h y2 (List.mem_cons_of_mem y hm)]
    exact gradInner_ne body w y xs g n (h y (by simp))

theorem gradOuter_get (body : ℕ → ℕ → Fl ℚ × Fl ℚ) (w : ℕ) (xs : List ℕ) (ys : List ℕ) :
    ∀ (g : ℕ → Fl ℚ × Fl ℚ) (x0 y0 : ℕ), x0 ∈ xs → xs.Nodup → y0 ∈ ys → ys.Nodup →
    (∀ x ∈ xs, x < w) →
    gradOuter body w xs ys g (y0 * w + x0) = body x0 y0 := by
  induction ys with
  | nil => intro g x0 y0 _ _ hy _ _; exact absurd hy (List.not_mem_nil y0)
  | cons y ys ih =>
    intro g x0 y0 hx hndx hy hndy hlt
    by_cases hyy : y0 = y
    · subst hyy
      have hnot : y0 ∉ ys := (List.nodup_cons.mp hndy).1
      rw [show gradOuter body w xs (y0 :: ys) g = gradOuter body w xs ys (gradInner body w y0 xs g) from rfl]
      rw [gradOuter_ne body w xs ys _ (y0 * w + x0) ?_]
      · exact gradInner_get body w y0 xs g x0 hx hndx
      · intro y2 hm x2 hmx he
        obtain ⟨hy2, _⟩ := rowIdx_inj (hlt x0 hx) (hlt x2 hmx) he
        exact hnot (hy2 ▸ hm)
    · have hy2 : y0 ∈ ys := by
        rcases List.mem_cons.mp hy with h | h
        · exact absurd h hyy
        · exact h
      exact ih (gradInner body w y xs g) x0 y0 hx hndx hy2 (List.nodup_cons.mp hndy).2 hlt

/-! ### Per-cell grayscale computation -/

@[simp] theorem castU8_nan [FloorRing α] : castU8 (.nan : Fl α) = 0 := rfl

@[simp] theorem castU8_fin_zero [FloorRing α] : castU8 (.fin (0 : α)) = 0 := by
  simp [castU8]

/-- A NaN cell always renders to pixel 0, whatever the range is. -/
theorem grayPix_nan (min_val range : Fl ℚ) : grayPix min_val range .nan = 0 := by
  unfold grayPix
  by_cases h : gtF range (.fin 0) <;> simp [h]

/-- When the min and max folds agree, the range is not positive and every
cell renders to pixel 0. -/
theorem grayPix_degenerate (m v : Fl ℚ) : grayPix m (subF m m) v = 0 := by
  cases m <;> simp [grayPix, subF, addF, negF, gtF]

/-- The non-degenerate finite case of the per-cell computation: the pixel is
the truncation of `(v - min) / (max - min) * 255`. -/
theorem grayPix_fin (mn mx v : ℚ) (h : mn < mx) :
    grayPix (.fin mn) (subF (.fin mx) (.fin mn)) (.fin v)
      = min 255 (Int.toNat ⌊(v - mn) / (mx - mn) * 255⌋) := by
  have hr : (0 : ℚ) < mx - mn := by linarith
  unfold grayPix
  rw [subF_fin, subF_fin]
  simp only [gtF, decide_eq_true_eq, hr, if_true]
  rw [divF_fin _ _ (ne_of_gt hr), mulF_fin]
  rfl

/-- The per-cell computation is monotone in a finite cell value. -/
theorem grayPix_fin_mono (min_val range : Fl ℚ) {a b : ℚ} (hab : a ≤ b) :
    grayPix min_val range (.fin a) ≤ grayPix min_val range (.fin b) := by
  unfold grayPix
  by_cases hg : gtF range (.fin 0)
  case neg => simp [hg]
  case pos =>
    simp only [hg, if_true]
    cases range with
    | nan => simp [gtF] at hg
    | ninf => simp [gtF] at hg
    | inf =>
      cases min_val <;> simp [subF, addF, negF, divF, mulF, castU8]
    | fin r =>
      have hr : 0 < r := by simpa [gtF] using hg
      cases min_val with
      | nan => simp
      | inf =>
        simp [subF, addF, negF, divF, mulF, castU8, not_lt.mpr hr.le, ne_of_gt hr]
      | ninf =>
        simp [subF, addF, negF, divF, mulF, castU8, not_lt.mpr hr.le, ne_of_gt hr]
      | fin m =>
        rw [subF_fin, subF_fin, divF_fin _ _ (ne_of_gt hr), divF_fin _ _ (ne_of_gt hr),
          mulF_fin, mulF_fin]
        apply castU8_fin_mono
        have h1 : (a - m) / r ≤ (b - m) / r := by
          apply (div_le_div_iff_of_pos_right hr).mpr
          linarith
        exact mul_le_mul_of_nonneg_right h1 (by norm_num)

/-! ### Hillshade intensity lemmas -/

@[simp] theorem sqrtF_nan : sqrtF .nan = .nan := rfl

@[simp] theorem atanF_nan : atanF .nan = .nan := rfl

@[simp] theorem cosF_nan : cosF .nan = .nan := rfl

@[simp] theorem sinF_nan : sinF .nan = .nan := rfl

@[simp] theorem clampF_nan (lo hi : α) : clampF lo hi .nan = .nan := rfl

@[simp] theorem atan2F_nan_left (x : Fl ℝ) : atan2F .nan x = .nan := by cases x <;> rfl

@[simp] theorem atan2F_nan_right (x : Fl ℝ) : atan2F x .nan = .nan := by cases x <;> rfl

/-- NaN in any of the eight neighborhood cells actually read by the kernel
(the center is not read) makes the whole intensity NaN. -/
theorem hillIntensity_nan (data : List (Fl ℝ)) (w : ℕ) (cs az alt : ℝ) (x y : ℕ)
    (h : Fl.nan ∈ [zval data w x y (-1) (-1), zval data w x y 0 (-1), zval data w x y 1 (-1),
                   zval data w x y (-1) 0, zval data w x y 1 0,
                   zval data w x y (-1) 1, zval data w x y 0 1, zval data w x y 1 1]) :
    hillIntensity data w cs az alt x y = .nan := by
  simp only [List.mem_cons, List.not_mem_nil, or_false] at h
  unfold hillIntensity
  rcases h with h | h | h | h | h | h | h | h <;> rw [← h] <;> simp

/-- On a locally flat neighborhood (all eight read cells equal) the finite
differences are exactly zero, the slope is zero, and the intensity is
exactly `255 * cos(altitude_rad)`. -/
theorem hillIntensity_const (data : List (Fl ℝ)) (w : ℕ) (cs az alt : ℝ) (x y : ℕ) (c : ℝ)
    (hcs : cs ≠ 0)
    (h1 : zval data w x y (-1) (-1) = .fin c) (h2 : zval data w x y 0 (-1) = .fin c)
    (h3 : zval data w x y 1 (-1) = .fin c) (h4 : zval data w x y (-1) 0 = .fin c)
    (h6 : zval data w x y 1 0 = .fin c) (h7 : zval data w x y (-1) 1 = .fin c)
    (h8 : zval data w x y 0 1 = .fin c) (h9 : zval data w x y 1 1 = .fin c) :
    hillIntensity data w cs az alt x y = .fin (255 * Real.cos (alt * (Real.pi / 180))) := by
  have h8cs : (8 : ℝ) * cs ≠ 0 := by
    intro hz
    rcases mul_eq_zero.mp hz with hz | hz
    · norm_num at hz
    · exact hcs hz
  unfold hillIntensity
  rw [h1, h2, h3, h4, h6, h7, h8, h9]
  simp only [addF_fin, mulF_fin, subF_fin, sub_self]
  rw [divF_fin _ _ h8cs]
  simp only [zero_div, mulF_fin, mul_zero, zero_mul, addF_fin, add_zero]
  simp [sqrtF, atanF, cosF, sinF, atan2F, atan2R, Real.sqrt_zero, Real.arctan_zero,
    Real.cos_zero, Real.sin_zero]

/-- Rational bounds on `√2`, used to evaluate the flat-terrain hillshade
pixel. -/
theorem sqrt_two_bounds : (1.4118 : ℝ) < Real.sqrt 2 ∧ Real.sqrt 2 < 1.4143 := by
  have hs := Real.sq_sqrt (by norm_num : (0 : ℝ) ≤ 2)
  have hn := Real.sqrt_nonneg 2
  constructor
  · nlinarith
  · nlinarith

/-- The clamped and cast flat-terrain intensity at the default 45 degree
altitude is the pixel value 180. -/
theorem castU8_clamp_cos45 :
    castU8 (clampF 0 255 (.fin (255 * Real.cos (Real.pi / 4)))) = 180 := by
  have hc : Real.cos (Real.pi / 4) = Real.sqrt 2 / 2 := Real.cos_pi_div_four
  obtain ⟨hl, hr⟩ := sqrt_two_bounds
  have hlo : (180 : ℝ) ≤ 255 * Real.cos (Real.pi / 4) := by rw [hc]; nlinarith
  have hhi : 255 * Real.cos (Real.pi / 4) < 181 := by rw [hc]; nlinarith
  have hcl : clampF (0 : ℝ) 255 (.fin (255 * Real.cos (Real.pi / 4)))
      = .fin (255 * Real.cos (Real.pi / 4)) := by
    simp only [clampF]
    rw [if_neg (by linarith), if_neg (by linarith)]
  rw [hcl]
  simp only [castU8]
  have hf : ⌊(255 * Real.cos (Real.pi / 4))⌋ = 180 := by
    rw [Int.floor_eq_iff]
    constructor
    · exact_mod_cast hlo
    · push_cast
      linarith
  rw [hf]
  rfl

/-! ### Parser lemmas -/

theorem applyHeader_ncols (st : AscState) (v : String) :
    applyHeader st ["ncols", v]
      = (parseU32 v).map fun n => ⟨n, st.height, st.nodata_value, st.cell_size⟩ := rfl

theorem applyHeader_nrows (st : AscState) (v : String) :
    applyHeader st ["nrows", v]
      = (parseU32 v).map fun n => ⟨st.width, n, st.nodata_value, st.cell_size⟩ := rfl

theorem applyHeader_nodata (st : AscState) (v : String) :
    applyHeader st ["nodata_value", v]
      = (parseF32 v).map fun q => ⟨st.width, st.height, q, st.cell_size⟩ := rfl

theorem applyHeader_cellsize (st : AscState) (v : String) :
    applyHeader st ["cellsize", v]
      = (parseF32 v).map fun q => ⟨st.width, st.height, st.nodata_value, q⟩ := rfl

theorem applyHeader_xllcorner (st : AscState) (v : String) :
    applyHeader st ["xllcorner", v] = some st := rfl

theorem applyHeader_yllcorner (st : AscState) (v : String) :
    applyHeader st ["yllcorner", v] = some st := rfl

theorem applyHeader_isSome (st : AscState) (parts : List String) :
    (applyHeader st parts).isSome = headerLineOk parts := by
  rcases parts with - | ⟨k, - | ⟨v, - | ⟨w, rest⟩⟩⟩
  · rfl
  · rfl
  · by_cases h1 : k = "ncols" <;> by_cases h2 : k = "nrows" <;>
      by_cases h3 : k = "nodata_value" <;> by_cases h4 : k = "cellsize" <;>
      simp [applyHeader, headerLineOk, h1, h2, h3, h4]
  · rfl

/-- The header step of the parser loop on a line whose recognized field
parses. -/
theorem ascLoop_succ (hl : ℕ) (st : AscState) (acc : List (Fl ℚ)) (parts : List String)
    (rest : List (List String)) (st2 : AscState) (h : applyHeader st parts = some st2) :
    ascLoop (hl + 1) st acc (parts :: rest) = ascLoop hl st2 acc rest := by
  rw [show ascLoop (hl + 1) st acc (parts :: rest)
      = (match applyHeader st parts with
         | none => none
         | some st3 => ascLoop hl st3 acc rest) from rfl, h]

/-- The data phase of the parser loop: every remaining token that parses is
appended, with cells equal to the nodata sentinel stored as NaN, and the
loop always succeeds. -/
theorem ascLoop_data (rest : List (List String)) : ∀ (st : AscState) (acc : List (Fl ℚ)),
    ascLoop 0 st acc rest
      = some (acc ++ (rest.flatten.filterMap parseF32).map
          (fun v => if feq v st.nodata_value then .nan else v),
          st.width, st.height, st.cell_size) := by
  induction rest with
  | nil => intro st acc; simp [ascLoop]
  | cons l ls ih =>
    intro st acc
    rw [show ascLoop 0 st acc (l :: ls)
        = ascLoop 0 st (acc ++ (l.filterMap parseF32).map
            (fun v => if feq v st.nodata_value then .nan else v)) ls from rfl,
      ih]
    simp [List.filterMap_append, List.append_assoc]

theorem ascLoop_data_isSome (rest : List (List String)) (st : AscState) (acc : List (Fl ℚ)) :
    (ascLoop 0 st acc rest).isSome := by
  rw [ascLoop_data]
  rfl

/-- As long as each of the remaining header lines is well formed, the parser
loop succeeds, whatever the data section holds. -/
theorem ascLoop_header_isSome (lines : List (List String)) :
    ∀ (hl : ℕ) (st : AscState) (acc : List (Fl ℚ)),
    ((lines.take hl).all headerLineOk) = true → (ascLoop hl st acc lines).isSome := by
  induction lines with
  | nil => intro hl st acc _; cases hl <;> rfl
  | cons l ls ih =>
    intro hl st acc hok
    cases hl with
    | zero => exact ascLoop_data_isSome (l :: ls) st acc
    | succ hl2 =>
      rw [List.take_succ_cons, List.all_cons, Bool.and_eq_true] at hok
      obtain ⟨hline, hrest⟩ := hok
      have hs : (applyHeader st l).isSome := by rw [applyHeader_isSome]; exact hline
      obtain ⟨st2, hst2⟩ := Option.isSome_iff_exists.mp hs
      rw [ascLoop_succ hl2 st acc l ls st2 hst2]
      exact ih hl2 st2 acc hrest

/-! ### Evaluation of the modelled parse functions on the tokens used by the
concrete examples -/

theorem parseF32_one : parseF32 "1" = some (.fin 1) := by
  simp [parseF32, splitDot, natOfDigits, isDig, digVal]

theorem parseF32_two : parseF32 "2" = some (.fin 2) := by
  simp [parseF32, splitDot, natOfDigits, isDig, digVal]

theorem parseF32_five : parseF32 "5" = some (.fin 5) := by
  simp [parseF32, splitDot, natOfDigits, isDig, digVal]

theorem parseF32_six : parseF32 "6" = some (.fin 6) := by
  simp [parseF32, splitDot, natOfDigits, isDig, digVal]

theorem parseF32_neg9999 : parseF32 "-9999" = some (.fin (-9999)) := by
  simp [parseF32, splitDot, natOfDigits, isDig, digVal]

theorem parseF32_abc : parseF32 "abc" = none := by decide

theorem parseU32_three : parseU32 "3" = some 3 := by decide

theorem parseU32_two : parseU32 "2" = some 2 := by decide

/-! ### Claim C1 -/

/-- C1 counterexample: an input declaring a 3×2 grid whose data section has
only two numeric tokens is parsed successfully by `asc_to_image` — no
`ParseError` or `ShapeMismatchError` is raised — and the returned cell
vector has length 2 < 3 * 2, contrary to the claim that such inputs
produce an error. -/
theorem C1_counterexample :
    asc_to_image [["ncols", "3"], ["nrows", "2"], ["xllcorner", "0"], ["yllcorner", "0"],
        ["cellsize", "1"], ["nodata_value", "-9999"], ["1", "2"]]
      = some ([Fl.fin 1, Fl.fin 2], 3, 2, Fl.fin 1)
    ∧ ([Fl.fin 1, Fl.fin 2] : List (Fl ℚ)).length < 3 * 2 := by
  constructor
  · simp [asc_to_image, ascLoop, applyHeader, parseU32, parseF32, splitDot, natOfDigits,
      isDig, digVal, feq]
    norm_num
  · norm_num

/-- C1 (amended): `asc_to_image` never fails because of the data section.
Whenever the six header lines are well formed it returns `Ok` — even when
the data section yields fewer numeric tokens than `width * height`, in
which case the returned cell vector is simply shorter; only a malformed
recognized header numeric field produces an error. -/
theorem C1_theorem (lines : List (List String)) (hok : headerOk lines = true) :
    (asc_to_image lines).isSome := by
  unfold asc_to_image
  exact ascLoop_header_isSome lines 6 _ [] hok

/-- C1 witness: the short-data input has a well-formed header, so the parser
succeeds on it. -/
theorem C1_witness :
    headerOk [["ncols", "3"], ["nrows", "2"], ["xllcorner", "0"], ["yllcorner", "0"],
        ["cellsize", "1"], ["nodata_value", "-9999"], ["1", "2"]] = true
    ∧ (asc_to_image [["ncols", "3"], ["nrows", "2"], ["xllcorner", "0"], ["yllcorner", "0"],
        ["cellsize", "1"], ["nodata_value", "-9999"], ["1", "2"]]).isSome :=
  ⟨by decide, C1_theorem _ (by decide)⟩

/-! ### Claim C6 -/

/-- C6: with a declared `nodata_value`, `asc_to_image` stores each data
token whose parsed value equals the sentinel as NaN and every other numeric
token as its parsed value, in file order. -/
theorem C6_theorem (wS hS csS ndS : String) (dataLines : List (List String))
    (w h : ℕ) (cs nd : Fl ℚ)
    (hw : parseU32 wS = some w) (hh : parseU32 hS = some h)
    (hcs : parseF32 csS = some cs) (hnd : parseF32 ndS = some nd) :
    asc_to_image (["ncols", wS] :: ["nrows", hS] :: ["xllcorner", "0"] :: ["yllcorner", "0"] ::
        ["cellsize", csS] :: ["nodata_value", ndS] :: dataLines)
      = some ((dataLines.flatten.filterMap parseF32).map
          (fun v => if feq v nd then .nan else v), w, h, cs) := by
  have e1 : applyHeader ⟨0, 0, .nan, .fin 1⟩ ["ncols", wS] = some ⟨w, 0, .nan, .fin 1⟩ := by
    rw [applyHeader_ncols, hw]; rfl
  have e2 : applyHeader ⟨w, 0, .nan, .fin 1⟩ ["nrows", hS] = some ⟨w, h, .nan, .fin 1⟩ := by
    rw [applyHeader_nrows, hh]; rfl
  have e5 : applyHeader ⟨w, h, .nan, .fin 1⟩ ["cellsize", csS] = some ⟨w, h, .nan, cs⟩ := by
    rw [applyHeader_cellsize, hcs]; rfl
  have e6 : applyHeader ⟨w, h, .nan, cs⟩ ["nodata_value", ndS] = some ⟨w, h, nd, cs⟩ := by
    rw [applyHeader_nodata, hnd]; rfl
  calc asc_to_image (["ncols", wS] :: ["nrows", hS] :: ["xllcorner", "0"] :: ["yllcorner", "0"] ::
        ["cellsize", csS] :: ["nodata_value", ndS] :: dataLines)
      = ascLoop 5 ⟨w, 0, .nan, .fin 1⟩ [] (["nrows", hS] :: ["xllcorner", "0"] ::
          ["yllcorner", "0"] :: ["cellsize", csS] :: ["nodata_value", ndS] :: dataLines) :=
        ascLoop_succ 5 _ _ _ _ _ e1
    _ = ascLoop 4 ⟨w, h, .nan, .fin 1⟩ [] (["xllcorner", "0"] :: ["yllcorner", "0"] ::
          ["cellsize", csS] :: ["nodata_value", ndS] :: dataLines) :=
        ascLoop_succ 4 _ _ _ _ _ e2
    _ = ascLoop 3 ⟨w, h, .nan, .fin 1⟩ [] (["yllcorner", "0"] ::
          ["cellsize", csS] :: ["nodata_value", ndS] :: dataLines) :=
        ascLoop_succ 3 _ _ _ _ _ (applyHeader_xllcorner _ _)
    _ = ascLoop 2 ⟨w, h, .nan, .fin 1⟩ [] (["cellsize", csS] ::
          ["nodata_value", ndS] :: dataLines) :=
        ascLoop_succ 2 _ _ _ _ _ (applyHeader_yllcorner _ _)
    _ = ascLoop 1 ⟨w, h, .nan, cs⟩ [] (["nodata_value", ndS] :: dataLines) :=
        ascLoop_succ 1 _ _ _ _ _ e5
    _ = ascLoop 0 ⟨w, h, nd, cs⟩ [] dataLines :=
        ascLoop_succ 0 _ _ _ _ _ e6
    _ = some ((dataLines.flatten.filterMap parseF32).map
          (fun v => if feq v nd then .nan else v), w, h, cs) := by
        rw [ascLoop_data]
        simp

/-- C6 witness: the spec's example grid `1 2 -9999 / -9999 5 6` with
`nodata_value -9999` parses to `[1, 2, NaN, NaN, 5, 6]`. -/
theorem C6_witness :
    asc_to_image [["ncols", "3"], ["nrows", "2"], ["xllcorner", "0"], ["yllcorner", "0"],
        ["cellsize", "1"], ["nodata_value", "-9999"], ["1", "2", "-9999"], ["-9999", "5", "6"]]
      = some ([Fl.fin 1, Fl.fin 2, Fl.nan, Fl.nan, Fl.fin 5, Fl.fin 6], 3, 2, Fl.fin 1) := by
  have h := C6_theorem "3" "2" "1" "-9999" [["1", "2", "-9999"], ["-9999", "5", "6"]]
    3 2 (Fl.fin 1) (Fl.fin (-9999)) parseU32_three parseU32_two parseF32_one parseF32_neg9999
  refine h.trans ?_
  simp [parseF32_one, parseF32_two, parseF32_five, parseF32_six, parseF32_neg9999, feq]
  norm_num

/-! ### Claim C9 -/

/-- C9: a whitespace-separated data token that does not parse as a float is
silently dropped by the data phase of `asc_to_image`: removing it does not
change the result, no error is raised, and no cell is appended (so the data
section can still parse successfully while yielding fewer cells). -/
theorem C9_theorem (st : AscState) (acc : List (Fl ℚ)) (pre post : List String)
    (rest : List (List String)) (bad : String) (hbad : parseF32 bad = none) :
    ascLoop 0 st acc ((pre ++ bad :: post) :: rest) = ascLoop 0 st acc ((pre ++ post) :: rest)
    ∧ (ascLoop 0 st acc ((pre ++ bad :: post) :: rest)).isSome := by
  refine ⟨?_, ascLoop_data_isSome _ _ _⟩
  rw [ascLoop_data, ascLoop_data]
  simp [List.filterMap_append, List.filterMap_cons, hbad]

/-- C9 witness: the malformed token `abc` in a data line is dropped and the
parse still succeeds. -/
theorem C9_witness :
    ascLoop 0 ⟨3, 2, Fl.fin (-9999), Fl.fin 1⟩ [] [["1", "abc", "2"]]
      = ascLoop 0 ⟨3, 2, Fl.fin (-9999), Fl.fin 1⟩ [] [["1", "2"]]
    ∧ (ascLoop 0 ⟨3, 2, Fl.fin (-9999), Fl.fin 1⟩ [] [["1", "abc", "2"]]).isSome := by
  have h := C9_theorem ⟨3, 2, Fl.fin (-9999), Fl.fin 1⟩ [] ["1"] ["2"] [] "abc" parseF32_abc
  simpa using h

/-! ### Claim C4 -/

/-- C4 counterexample: for the grid `[0, 1, 2]` of width 3 the middle cell
has normalized value `1/2`, and `data_to_grayscale` produces pixel 127 (the
truncation of `127.5`), whereas the claimed `round(t * 255)` would be the
nearest integer 128. -/
theorem C4_counterexample :
    data_to_grayscale [Fl.fin 0, Fl.fin 1, Fl.fin 2] 3 1 1 0 = 127
    ∧ round ((1 / 2 : ℚ) * 255) = 128 := by
  constructor
  · simp [data_to_grayscale, renderFrom, upd, grayPix, fminF, fmaxF, gtF, subF, addF, negF,
      divF, mulF, castU8]
    norm_num
    decide
  · rw [round_eq]
    norm_num

/-- C4 (amended): `data_to_grayscale` produces `pixel = trunc(t * 255)` —
truncation, not rounding — where `t = (v - min)/(max - min)` for a finite
cell `v` of a grid with a positive range, and `t = 0` for a NaN cell; in
particular a cell with normalized value `1/2` maps to 127. -/
theorem C4_theorem (data : List (Fl ℚ)) (w h i : ℕ) (hi : i < data.length)
    (_hw : 0 < w) (_hlen : data.length ≤ w * h) :
    (∀ v mn mx : ℚ, data.get ⟨i, hi⟩ = .fin v
      → data.foldl fminF .inf = .fin mn → data.foldl fmaxF .ninf = .fin mx → mn < mx
      → data_to_grayscale data w h (i % w) (i / w)
          = min 255 (Int.toNat ⌊(v - mn) / (mx - mn) * 255⌋))
    ∧ (data.get ⟨i, hi⟩ = .nan → data_to_grayscale data w h (i % w) (i / w) = 0) := by
  constructor
  · intro v mn mx hv hmn hmx hlt
    rw [data_to_grayscale_get data w h i hi, hv, hmn, hmx, grayPix_fin mn mx v hlt]
  · intro hv
    rw [data_to_grayscale_get data w h i hi, hv, grayPix_nan]

/-- C4 witness: on the grid `[0, 1, 2]` of width 3 the middle pixel is 127,
and with a NaN middle cell it is 0. -/
theorem C4_witness :
    data_to_grayscale [Fl.fin 0, Fl.fin 1, Fl.fin 2] 3 1 1 0 = 127
    ∧ data_to_grayscale [Fl.fin 0, Fl.nan, Fl.fin 2] 3 1 1 0 = 0 := by
  constructor
  · have h := (C4_theorem [Fl.fin 0, Fl.fin 1, Fl.fin 2] 3 1 1 (by norm_num) (by norm_num)
      (by norm_num)).1 1 0 2 rfl (by simp [fminF]) (by simp [fmaxF]) (by norm_num)
    have hf : ⌊((1 : ℚ) - 0) / (2 - 0) * 255⌋ = 127 := by
      rw [Int.floor_eq_iff]
      norm_num
    rw [hf] at h
    simpa using h
  · have h := (C4_theorem [Fl.fin 0, Fl.nan, Fl.fin 2] 3 1 1 (by norm_num) (by norm_num)
      (by norm_num)).2 rfl
    simpa using h

/-! ### Claim C5 -/

/-- C5: `data_to_grayscale` renders pixel 0 for every NaN cell regardless of
position, and, when the min fold equals the max fold (constant or
degenerate grid), for every cell. -/
theorem C5_theorem (data : List (Fl ℚ)) (w h : ℕ) (_hw : 0 < w)
    (_hlen : data.length ≤ w * h) :
    (∀ i (hi : i < data.length), data.get ⟨i, hi⟩ = .nan
      → data_to_grayscale data w h (i % w) (i / w) = 0)
    ∧ (data.foldl fminF .inf = data.foldl fmaxF .ninf
      → ∀ i (hi : i < data.length), data_to_grayscale data w h (i % w) (i / w) = 0) := by
  constructor
  · intro i hi hv
    rw [data_to_grayscale_get data w h i hi, hv, grayPix_nan]
  · intro hminmax i hi
    rw [data_to_grayscale_get data w h i hi, ← hminmax, grayPix_degenerate]

/-- C5 witness: a NaN cell of `[NaN, 1, 2]` renders to 0, and every cell of
the constant grid `[5, 5, 5]` renders to 0. -/
theorem C5_witness :
    data_to_grayscale [Fl.nan, Fl.fin 1, Fl.fin 2] 3 1 0 0 = 0
    ∧ data_to_grayscale [Fl.fin 5, Fl.fin 5, Fl.fin 5] 3 1 1 0 = 0 := by
  constructor
  · have h := (C5_theorem [Fl.nan, Fl.fin 1, Fl.fin 2] 3 1 (by norm_num) (by norm_num)).1
      0 (by norm_num) rfl
    simpa using h
  · have h := (C5_theorem [Fl.fin 5, Fl.fin 5, Fl.fin 5] 3 1 (by norm_num) (by norm_num)).2
      (by simp [fminF, fmaxF]) 1 (by norm_num)
    simpa using h

/-! ### Claim C7 -/

/-- C7: the value-to-pixel map of `data_to_grayscale` is monotone: for two
finite cells `a < b` of the same grid (hence normalized through the same
min/max) the pixel produced for `a` is at most the pixel produced for
`b`. -/
theorem C7_theorem (data : List (Fl ℚ)) (w h i j : ℕ) (hi : i < data.length)
    (hj : j < data.length) (a b : ℚ) (_hw : 0 < w) (_hlen : data.length ≤ w * h)
    (ha : data.get ⟨i, hi⟩ = .fin a) (hb : data.get ⟨j, hj⟩ = .fin b) (hab : a < b) :
    data_to_grayscale data w h (i % w) (i / w)
      ≤ data_to_grayscale data w h (j % w) (j / w) := by
  rw [data_to_grayscale_get data w h i hi, data_to_grayscale_get data w h j hj, ha, hb]
  exact grayPix_fin_mono _ _ hab.le

/-- C7 witness: on `[0, 1, 2]` with width 3 the pixel of the cell 0 is at
most the pixel of the cell 2. -/
theorem C7_witness :
    data_to_grayscale [Fl.fin 0, Fl.fin 1, Fl.fin 2] 3 1 0 0
      ≤ data_to_grayscale [Fl.fin 0, Fl.fin 1, Fl.fin 2] 3 1 2 0 := by
  have h := C7_theorem [Fl.fin 0, Fl.fin 1, Fl.fin 2] 3 1 0 2 (by norm_num) (by norm_num)
    0 2 (by norm_num) (by norm_num) rfl rfl (by norm_num)
  simpa using h

/-! ### Hillshade interior pixel lemma -/

/-- An interior cell's pixels in both hillshade rasters are exactly the loop
body's values. -/
theorem hill_shading_interior (data : List (Fl ℝ)) (colored : ℕ → ℕ → ℕ × ℕ × ℕ × ℕ)
    (w h : ℕ) (cs az alt : ℝ) (x y : ℕ)
    (hx1 : 1 ≤ x) (hx2 : x < w - 1) (hy1 : 1 ≤ y) (hy2 : y < h - 1) :
    (hill_shading data colored w h cs az alt).1 x y
        = (hillBody data colored w cs az alt x y).1
    ∧ (hill_shading data colored w h cs az alt).2 x y
        = (hillBody data colored w cs az alt x y).2 := by
  unfold hill_shading
  apply hillOuter_get
  · rw [List.mem_range'_1]; omega
  · exact List.nodup_range' _ _
  · rw [List.mem_range'_1]; omega
  · exact List.nodup_range' _ _

/-! ### Claim C2 -/

/-- C2: `hill_shading` never writes a border cell: for every grid, every
pixel in row 0, row `height-1`, column 0 or column `width-1` keeps the
raster's default-initialized value — 0 in the grayscale output and the
transparent `(0, 0, 0, 0)` in the combined RGBA output. -/
theorem C2_theorem (data : List (Fl ℝ)) (colored : ℕ → ℕ → ℕ × ℕ × ℕ × ℕ)
    (w h : ℕ) (cs az alt : ℝ) (_hw : 0 < w) (_hh : 0 < h) (_hlen : w * h ≤ data.length)
    (x y : ℕ) (hxw : x < w) (hyh : y < h)
    (hb : x = 0 ∨ x = w - 1 ∨ y = 0 ∨ y = h - 1) :
    (hill_shading data colored w h cs az alt).1 x y = 0
    ∧ (hill_shading data colored w h cs az alt).2 x y = (0, 0, 0, 0) := by
  unfold hill_shading
  apply hillOuter_ne
  rcases hb with hb | hb | hb | hb
  · left; rw [List.mem_range'_1]; omega
  · left; rw [List.mem_range'_1]; omega
  · right; rw [List.mem_range'_1]; omega
  · right; rw [List.mem_range'_1]; omega

/-- C2 witness: on a 2×2 grid (all cells are border cells) the corner pixel
keeps 0 and `(0, 0, 0, 0)`, even with a nonzero colored image. -/
theorem C2_witness :
    (hill_shading [Fl.fin 1, Fl.fin 2, Fl.fin 3, Fl.fin 4] (fun _ _ => (9, 9, 9, 9))
        2 2 1 315 45).1 0 0 = 0
    ∧ (hill_shading [Fl.fin 1, Fl.fin 2, Fl.fin 3, Fl.fin 4] (fun _ _ => (9, 9, 9, 9))
        2 2 1 315 45).2 0 0 = (0, 0, 0, 0) :=
  C2_theorem _ _ 2 2 1 315 45 (by norm_num) (by norm_num) (by norm_num) 0 0
    (by norm_num) (by norm_num) (Or.inl rfl)

/-! ### Claim C3 -/

/-- C3: on a flat 3×3 grid of identical elevations and any positive cell
size, the interior intensity at `(1, 1)` is exactly
`255 * cos(altitude_rad)` (the slope is zero), and with the default 45
degree altitude the grayscale hillshade pixel at `(1, 1)` is the clamp-cast
of `255 * cos(π/4)`. -/
theorem C3_theorem (c cs az alt : ℝ) (colored : ℕ → ℕ → ℕ × ℕ × ℕ × ℕ) (hcs : 0 < cs) :
    hillIntensity (List.replicate 9 (Fl.fin c)) 3 cs az alt 1 1
      = .fin (255 * Real.cos (alt * (Real.pi / 180)))
    ∧ (hill_shading (List.replicate 9 (Fl.fin c)) colored 3 3 cs az 45).1 1 1
      = castU8 (clampF 0 255 (.fin (255 * Real.cos (Real.pi / 4)))) := by
  have hint : ∀ alt2 : ℝ, hillIntensity (List.replicate 9 (Fl.fin c)) 3 cs az alt2 1 1
      = .fin (255 * Real.cos (alt2 * (Real.pi / 180))) := by
    intro alt2
    exact hillIntensity_const _ _ _ _ _ _ _ _ (ne_of_gt hcs) rfl rfl rfl rfl rfl rfl rfl rfl
  refine ⟨hint alt, ?_⟩
  obtain ⟨g1, -⟩ := hill_shading_interior (List.replicate 9 (Fl.fin c)) colored 3 3 cs az 45
    1 1 (by norm_num) (by norm_num) (by norm_num) (by norm_num)
  rw [g1,
    show (hillBody (List.replicate 9 (Fl.fin c)) colored 3 cs az 45 1 1).1
      = castU8 (clampF 0 255 (hillIntensity (List.replicate 9 (Fl.fin c)) 3 cs az 45 1 1))
      from rfl,
    hint 45, show (45 : ℝ) * (Real.pi / 180) = Real.pi / 4 by ring]

/-- C3 witness: the flat grid of constant elevation 7 with cell size 1. -/
theorem C3_witness :
    hillIntensity (List.replicate 9 (Fl.fin 7)) 3 1 315 30 1 1
      = Fl.fin (255 * Real.cos (30 * (Real.pi / 180)))
    ∧ (hill_shading (List.replicate 9 (Fl.fin 7)) (fun _ _ => (0, 0, 0, 0)) 3 3 1 315 45).1 1 1
      = castU8 (clampF 0 255 (Fl.fin (255 * Real.cos (Real.pi / 4)))) :=
  C3_theorem 7 1 315 30 (fun _ _ => (0, 0, 0, 0)) (by norm_num)

/-! ### Claim C10 -/

/-- C10 counterexample: a 3×3 grid whose center is NaN but whose eight
surrounding cells are all 1 has a NaN in the 3×3 neighborhood of the
interior cell `(1, 1)`, yet `hill_shading` writes grayscale pixel 180 there
(the kernel never reads the center), not the claimed 0. -/
theorem C10_counterexample :
    (hill_shading [Fl.fin 1, Fl.fin 1, Fl.fin 1, Fl.fin 1, Fl.nan, Fl.fin 1,
        Fl.fin 1, Fl.fin 1, Fl.fin 1] (fun _ _ => (0, 0, 0, 0)) 3 3 1 315 45).1 1 1 = 180
    ∧ (hill_shading [Fl.fin 1, Fl.fin 1, Fl.fin 1, Fl.fin 1, Fl.nan, Fl.fin 1,
        Fl.fin 1, Fl.fin 1, Fl.fin 1] (fun _ _ => (0, 0, 0, 0)) 3 3 1 315 45).1 1 1 ≠ 0 := by
  have h180 : (hill_shading [Fl.fin 1, Fl.fin 1, Fl.fin 1, Fl.fin 1, Fl.nan, Fl.fin 1,
      Fl.fin 1, Fl.fin 1, Fl.fin 1] (fun _ _ => (0, 0, 0, 0)) 3 3 1 315 45).1 1 1 = 180 := by
    obtain ⟨g1, -⟩ := hill_shading_interior [Fl.fin 1, Fl.fin 1, Fl.fin 1, Fl.fin 1, Fl.nan,
      Fl.fin 1, Fl.fin 1, Fl.fin 1, Fl.fin 1] (fun _ _ => (0, 0, 0, 0)) 3 3 1 315 45
      1 1 (by norm_num) (by norm_num) (by norm_num) (by norm_num)
    have hint := hillIntensity_const [Fl.fin 1, Fl.fin 1, Fl.fin 1, Fl.fin 1, Fl.nan,
      Fl.fin 1, Fl.fin 1, Fl.fin 1, Fl.fin 1] 3 1 315 45 1 1 1 (by norm_num)
      rfl rfl rfl rfl rfl rfl rfl rfl
    rw [g1,
      show (hillBody [Fl.fin 1, Fl.fin 1, Fl.fin 1, Fl.fin 1, Fl.nan, Fl.fin 1,
          Fl.fin 1, Fl.fin 1, Fl.fin 1] (fun _ _ => (0, 0, 0, 0)) 3 1 315 45 1 1).1
        = castU8 (clampF 0 255 (hillIntensity [Fl.fin 1, Fl.fin 1, Fl.fin 1, Fl.fin 1, Fl.nan,
          Fl.fin 1, Fl.fin 1, Fl.fin 1, Fl.fin 1] 3 1 315 45 1 1)) from rfl,
      hint, show (45 : ℝ) * (Real.pi / 180) = Real.pi / 4 by ring, castU8_clamp_cos45]
  exact ⟨h180, by rw [h180]; norm_num⟩

/-- C10 (amended): for every interior cell one of whose eight surrounding
neighborhood cells (the center is not read by the kernel) is NaN,
`hill_shading` writes grayscale pixel 0 and RGBA `(0, 0, 0, 255)` — alpha
255 with zero color channels — at that cell. -/
theorem C10_theorem (data : List (Fl ℝ)) (colored : ℕ → ℕ → ℕ × ℕ × ℕ × ℕ)
    (w h : ℕ) (cs az alt : ℝ) (x y : ℕ)
    (hx1 : 1 ≤ x) (hx2 : x < w - 1) (hy1 : 1 ≤ y) (hy2 : y < h - 1)
    (_hlen : w * h ≤ data.length)
    (hnan : Fl.nan ∈ [zval data w x y (-1) (-1), zval data w x y 0 (-1),
        zval data w x y 1 (-1), zval data w x y (-1) 0, zval data w x y 1 0,
        zval data w x y (-1) 1, zval data w x y 0 1, zval data w x y 1 1]) :
    (hill_shading data colored w h cs az alt).1 x y = 0
    ∧ (hill_shading data colored w h cs az alt).2 x y = (0, 0, 0, 255) := by
  obtain ⟨g1, g2⟩ := hill_shading_interior data colored w h cs az alt x y hx1 hx2 hy1 hy2
  have hint := hillIntensity_nan data w cs az alt x y hnan
  constructor
  · rw [g1,
      show (hillBody data colored w cs az alt x y).1
        = castU8 (clampF 0 255 (hillIntensity data w cs az alt x y)) from rfl,
      hint]
    rfl
  · rw [g2]
    simp [hillBody, hint, divF, mulF, castU8, clampF]

/-- C10 witness: the top-left neighbor of the center of a 3×3 grid is NaN,
so the center pixel is 0 and its RGBA pixel is `(0, 0, 0, 255)`, even with
a nonzero colored image. -/
theorem C10_witness :
    (hill_shading [Fl.nan, Fl.fin 1, Fl.fin 1, Fl.fin 1, Fl.fin 1, Fl.fin 1,
        Fl.fin 1, Fl.fin 1, Fl.fin 1] (fun _ _ => (7, 7, 7, 7)) 3 3 1 315 45).1 1 1 = 0
    ∧ (hill_shading [Fl.nan, Fl.fin 1, Fl.fin 1, Fl.fin 1, Fl.fin 1, Fl.fin 1,
        Fl.fin 1, Fl.fin 1, Fl.fin 1] (fun _ _ => (7, 7, 7, 7)) 3 3 1 315 45).2 1 1
      = (0, 0, 0, 255) := by
  apply C10_theorem _ _ 3 3 1 315 45 1 1 (by norm_num) (by norm_num) (by norm_num)
    (by norm_num) (by norm_num)
  exact List.mem_cons_self _ _

/-! ### Claim C8 -/

/-- The per-cell gradient computation equals the difference of the left and
right (resp. top and bottom) window sums, divided by the half window. -/
theorem gradBody_eq (data : List (Fl ℚ)) (w half x y : ℕ) :
    gradBody data w half x y
      = (divF (subF
            (sumF ((List.range' 1 half).map fun o => data.getD (y * w + (x - o)) (.fin 0)))
            (sumF ((List.range' 1 half).map fun o => data.getD (y * w + (x + o)) (.fin 0))))
          (.fin (half : ℚ)),
         divF (subF
            (sumF ((List.range' 1 half).map fun o => data.getD ((y - o) * w + x) (.fin 0)))
            (sumF ((List.range' 1 half).map fun o => data.getD ((y + o) * w + x) (.fin 0))))
          (.fin (half : ℚ))) := by
  unfold gradBody
  rw [foldl_sub_add_eq, foldl_sub_add_eq, zero_addF, zero_addF]

/-- C8: `compute_gradients` assigns the zero vector to every cell within
`half_window = window_size / 2` of any border, and to every other cell the
pair `(dz_dx, dz_dy)` where `dz_dx` is the sum of the cells at column
offsets `-1..-h` minus the sum at offsets `+1..+h` along the row, divided
by `h` (and `dz_dy` analogously along the column). -/
theorem C8_theorem (data : List (Fl ℚ)) (w h ws : ℕ) (_hodd : Odd ws)
    (_hlen : data.length = w * h) (hw : ws / 2 ≤ w) (hh : ws / 2 ≤ h)
    (x y : ℕ) (hxw : x < w) (_hyh : y < h) :
    ((x < ws / 2 ∨ w - ws / 2 ≤ x ∨ y < ws / 2 ∨ h - ws / 2 ≤ y)
      → compute_gradients data w h ws (y * w + x) = (.fin 0, .fin 0))
    ∧ ((ws / 2 ≤ x ∧ x < w - ws / 2 ∧ ws / 2 ≤ y ∧ y < h - ws / 2)
      → compute_gradients data w h ws (y * w + x)
          = (divF (subF
                (sumF ((List.range' 1 (ws / 2)).map fun o => data.getD (y * w + (x - o)) (.fin 0)))
                (sumF ((List.range' 1 (ws / 2)).map fun o => data.getD (y * w + (x + o)) (.fin 0))))
              (.fin ((ws / 2 : ℕ) : ℚ)),
             divF (subF
                (sumF ((List.range' 1 (ws / 2)).map fun o => data.getD ((y - o) * w + x) (.fin 0)))
                (sumF ((List.range' 1 (ws / 2)).map fun o => data.getD ((y + o) * w + x) (.fin 0))))
              (.fin ((ws / 2 : ℕ) : ℚ)))) := by
  constructor
  · intro hreg
    unfold compute_gradients
    apply gradOuter_ne
    intro y2 hy2 x2 hx2 he
    rw [List.mem_range'_1] at hy2 hx2
    have hx2w : x2 < w := by omega
    obtain ⟨hyy, hxx⟩ := rowIdx_inj hxw hx2w he
    omega
  · rintro ⟨h1, h2, h3, h4⟩
    have hg := gradOuter_get (gradBody data w (ws / 2)) w
      (List.range' (ws / 2) ((w - ws / 2) - ws / 2))
      (List.range' (ws / 2) ((h - ws / 2) - ws / 2))
      (fun _ => (.fin 0, .fin 0)) x y ?_ ?_ ?_ ?_ ?_
    · exact hg.trans (gradBody_eq data w (ws / 2) x y)
    · rw [List.mem_range'_1]; omega
    · exact List.nodup_range' _ _
    · rw [List.mem_range'_1]; omega
    · exact List.nodup_range' _ _
    · intro x2 hx2
      rw [List.mem_range'_1] at hx2
      omega

/-- C8 witness: on the 3×3 grid `1..9` with `window_size = 3` the interior
cell `(1, 1)` gets `((4 - 6)/1, (2 - 8)/1) = (-2, -6)` and the border cell
`(0, 0)` keeps the zero vector. -/
theorem C8_witness :
    compute_gradients [Fl.fin 1, Fl.fin 2, Fl.fin 3, Fl.fin 4, Fl.fin 5, Fl.fin 6,
        Fl.fin 7, Fl.fin 8, Fl.fin 9] 3 3 3 (1 * 3 + 1) = (Fl.fin (-2), Fl.fin (-6))
    ∧ compute_gradients [Fl.fin 1, Fl.fin 2, Fl.fin 3, Fl.fin 4, Fl.fin 5, Fl.fin 6,
        Fl.fin 7, Fl.fin 8, Fl.fin 9] 3 3 3 (0 * 3 + 0) = (Fl.fin 0, Fl.fin 0) := by
  constructor
  · have h := (C8_theorem [Fl.fin 1, Fl.fin 2, Fl.fin 3, Fl.fin 4, Fl.fin 5, Fl.fin 6,
      Fl.fin 7, Fl.fin 8, Fl.fin 9] 3 3 3 ⟨1, by norm_num⟩ (by norm_num) (by norm_num)
      (by norm_num) 1 1 (by norm_num) (by norm_num)).2 (by norm_num)
    rw [h]
    norm_num [sumF, List.range', subF, addF, negF, divF]
  · exact (C8_theorem [Fl.fin 1, Fl.fin 2, Fl.fin 3, Fl.fin 4, Fl.fin 5, Fl.fin 6,
      Fl.fin 7, Fl.fin 8, Fl.fin 9] 3 3 3 ⟨1, by norm_num⟩ (by norm_num) (by norm_num)
      (by norm_num) 0 0 (by norm_num) (by norm_num)).1 (by norm_num)

end DEM
